import Mathlib

/-!
Shallow embedding of `ilkit/util/buffer.py`: the `TransitionBuffer` and
`DAggerBuffer` experience-replay containers.

Modelling conventions:
* A numpy/torch tensor is carried as its shape together with its flat
  contents.  All dtype conversions in the source (`np.float32`, `np.int64`,
  `th.tensor`, `.to(device)`) are value-preserving for the integer-valued
  data exercised here, so contents are integers and conversions identities.
* Device placement has no observable effect on any verified property and is
  dropped.
* Python exceptions are modelled by returning the post-call object state
  paired with `Option PyError`: an exception aborts the method but the
  object keeps every mutation already performed.
* `random.shuffle` is modelled by an explicit index-list parameter; theorems
  constrain it to be a permutation of `List.range size`.
-/

/-- A host/device tensor: its shape and its flat contents. -/
structure Tens where
  shape : List Nat
  data : List Int
deriving DecidableEq, Repr

/-- One per-field storage array (`self.buffers[i]`): a tensor of shape
`(n, *eshape)`, held as the fixed per-entry shape `eshape` plus the list of
the `n` stored rows (each row the flat contents of one entry). -/
structure FieldBuf where
  eshape : List Nat
  rows : List (List Int)
deriving DecidableEq, Repr

/-- The Python exceptions the buffer methods can raise. -/
inductive PyError where
  | catShapeMismatch
  | assignShapeMismatch
  | indexError
  | zeroDivisionError
deriving DecidableEq, Repr

/-- Split a flat list into `n` consecutive chunks of size `sz`. -/
def chunkList (n sz : Nat) (l : List Int) : List (List Int) :=
  match n with
  | 0 => []
  | k + 1 => l.take sz :: chunkList k sz (l.drop sz)

/-- Fuelled core of numpy/torch assignment broadcasting: expand a source
tensor to a target entry shape (align shapes on the right; each source
dimension must equal the target dimension or be 1; source rank must not
exceed target rank).  `none` models the raised broadcast error. -/
def bcastF : Nat → List Nat → Tens → Option (List Int)
  | 0, _, _ => none
  | _ + 1, [], t => if t.shape = [] then some t.data else none
  | fuel + 1, d :: ds, t =>
    if t.shape.length < ds.length + 1 then
      (bcastF fuel ds t).map (fun l => (List.replicate d l).flatten)
    else
      match t.shape with
      | [] => none
      | td :: trest =>
        if t.shape.length = ds.length + 1 then
          if td = d then
            (List.mapM (fun s => bcastF fuel ds ⟨trest, s⟩)
              (chunkList td trest.prod t.data)).map List.flatten
          else if td = 1 then
            (bcastF fuel ds ⟨trest, t.data⟩).map
              (fun l => (List.replicate d l).flatten)
          else none
        else none

/-- Broadcast a source tensor into a target entry shape. -/
def bcast (e : List Nat) (t : Tens) : Option (List Int) :=
  bcastF (e.length + 1) e t

/-- The append branch on one field:
`th.cat((buf, th.unsqueeze(t, dim=0)), dim=0)`.  `cat` requires all
non-concatenated dimensions to agree, i.e. the entry shape of the incoming
tensor must equal the storage entry shape, except for the documented legacy
exemption: a 1-D empty input of shape `(0,)` (here: a field with entry shape
`()` and no rows yet, as `clear()` produces when the configured shape is the
empty tuple) is skipped and exempt from the check, so the result is just the
unsqueezed tensor of shape `(1, *t.shape)` and the storage silently adopts
the incoming entry shape.  On success the row is appended. -/
def FieldBuf.catRow (f : FieldBuf) (t : Tens) : Option FieldBuf :=
  if f.eshape = [] ∧ f.rows = [] then some ⟨t.shape, [t.data]⟩
  else if t.shape = f.eshape then some ⟨f.eshape, f.rows ++ [t.data]⟩
  else none

/-- The overwrite branch on one field: `buf[i] = t`.  Raises `IndexError`
when `i` is out of range and a broadcast error when the source shape does
not broadcast into the slot shape; otherwise replaces row `i` in place. -/
def FieldBuf.writeSlot (f : FieldBuf) (i : Nat) (t : Tens) :
    Except PyError FieldBuf :=
  if i < f.rows.length then
    match bcast f.eshape t with
    | some d => .ok ⟨f.eshape, f.rows.set i d⟩
    | none => .error .assignShapeMismatch
  else .error .indexError

/-- `sys.maxsize` on a 64-bit CPython build. -/
def sysMaxsize : Nat := 9223372036854775807

/-- The `TransitionBuffer` object state.  `discrete` encodes
`action_dtype == np.int64` (the assert in `__init__` admits exactly the two
dtypes this boolean enumerates); `buffer_size` holds the stored
`self.buffer_size`, i.e. the constructor argument after the `-1` sentinel is
mapped to `sys.maxsize`. -/
structure TransitionBuffer where
  state_shape : List Nat
  action_shape : List Nat
  discrete : Bool
  buffer_size : Nat
  state_buf : FieldBuf
  action_buf : FieldBuf
  next_state_buf : FieldBuf
  reward_buf : FieldBuf
  done_buf : FieldBuf
  ptr : Nat
  size : Nat
  total_size : Nat
deriving DecidableEq, Repr

/-- `TransitionBuffer.clear`: reinitialize all five storage arrays to
zero-length (discrete actions store length-1 integer labels, hence entry
shape `(1,)`) and zero the cursor and both counters. -/
def TransitionBuffer.clear (b : TransitionBuffer) : TransitionBuffer :=
  { b with
    state_buf := ⟨b.state_shape, []⟩
    action_buf := ⟨if b.discrete then [1] else b.action_shape, []⟩
    next_state_buf := ⟨b.state_shape, []⟩
    reward_buf := ⟨[1], []⟩
    done_buf := ⟨[1], []⟩
    ptr := 0
    size := 0
    total_size := 0 }

/-- `TransitionBuffer.__init__`: record the shapes and action kind, map the
`-1` buffer-size sentinel to `sys.maxsize`, then `clear()`. -/
def TransitionBuffer.make (ss as : List Nat) (disc : Bool) (bs : Int) :
    TransitionBuffer :=
  TransitionBuffer.clear
    { state_shape := ss
      action_shape := as
      discrete := disc
      buffer_size := if bs = -1 then sysMaxsize else bs.toNat
      state_buf := ⟨[], []⟩
      action_buf := ⟨[], []⟩
      next_state_buf := ⟨[], []⟩
      reward_buf := ⟨[], []⟩
      done_buf := ⟨[], []⟩
      ptr := 0
      size := 0
      total_size := 0 }

/-- The tail of `insert_transition`: advance the cursor by
`(ptr + 1) % buffer_size` (a `ZeroDivisionError` when `buffer_size == 0`),
clamp `size` to the capacity and bump `total_size`. -/
def TransitionBuffer.advance (b : TransitionBuffer) :
    TransitionBuffer × Option PyError :=
  if b.buffer_size = 0 then (b, some .zeroDivisionError)
  else
    ({ b with
        ptr := (b.ptr + 1) % b.buffer_size
        size := min (b.size + 1) b.buffer_size
        total_size := b.total_size + 1 }, none)

/-- The storage-mutation step of `insert_transition`.  While
`total_size <= buffer_size` the five fields are concatenated and the list
`self.buffers` is reassigned atomically (an exception in any `th.cat` leaves
all storage untouched); afterwards the fields are overwritten at `ptr` one
at a time, so an exception partway leaves the earlier fields mutated. -/
def TransitionBuffer.storeStep (b : TransitionBuffer)
    (st act ns rew dn : Tens) : TransitionBuffer × Option PyError :=
  if b.total_size ≤ b.buffer_size then
    match b.state_buf.catRow st, b.action_buf.catRow act,
        b.next_state_buf.catRow ns, b.reward_buf.catRow rew,
        b.done_buf.catRow dn with
    | some sb, some ab, some nb, some rb, some db =>
      ({ b with state_buf := sb, action_buf := ab, next_state_buf := nb,
                reward_buf := rb, done_buf := db }, none)
    | _, _, _, _, _ => (b, some .catShapeMismatch)
  else
    match b.state_buf.writeSlot b.ptr st with
    | .error e => (b, some e)
    | .ok sb =>
      match b.action_buf.writeSlot b.ptr act with
      | .error e => ({ b with state_buf := sb }, some e)
      | .ok ab =>
        match b.next_state_buf.writeSlot b.ptr ns with
        | .error e => ({ b with state_buf := sb, action_buf := ab }, some e)
        | .ok nb =>
          match b.reward_buf.writeSlot b.ptr rew with
          | .error e =>
            ({ b with state_buf := sb, action_buf := ab,
                      next_state_buf := nb }, some e)
          | .ok rb =>
            match b.done_buf.writeSlot b.ptr dn with
            | .error e =>
              ({ b with state_buf := sb, action_buf := ab,
                        next_state_buf := nb, reward_buf := rb }, some e)
            | .ok db =>
              ({ b with state_buf := sb, action_buf := ab,
                        next_state_buf := nb, reward_buf := rb,
                        done_buf := db }, none)

/-- `TransitionBuffer.insert_transition`: normalize the inputs (a discrete
action is wrapped as `[action]`, gaining a leading dimension of 1; reward and
done become length-1 vectors), perform the storage step, then update the
cursor and counters.  The returned buffer is the post-call object state even
when an error is raised. -/
def TransitionBuffer.insert_transition (b : TransitionBuffer) (state : Tens)
    (action : Tens) (next_state : Tens) (reward : Int) (done : Bool) :
    TransitionBuffer × Option PyError :=
  match b.storeStep state
      (if b.discrete then ⟨1 :: action.shape, action.data⟩ else action)
      next_state ⟨[1], [reward]⟩ ⟨[1], [if done then 1 else 0]⟩ with
  | (b', some e) => (b', some e)
  | (b', none) => b'.advance

/-- Gather `rows[i]` for each index in `idx` (torch advanced indexing
`buffer[idx]`); `none` models the `IndexError` on an out-of-range index. -/
def gatherRows (rows : List (List Int)) : List Nat → Option (List (List Int))
  | [] => some []
  | i :: is =>
    (rows[i]?).bind (fun r => (gatherRows rows is).map (fun rs => r :: rs))

/-- `TransitionBuffer.sample`: build `idx = list(range(size))`, replace it by
the shuffled permutation when `shuffle` is true, truncate to `batch_size`
when given, and gather every field at those indices.  The first component is
the post-call object state: the method performs no attribute assignment. -/
def TransitionBuffer.sample (b : TransitionBuffer) (shuffledIdx : List Nat)
    (shuffle : Bool) (batch_size : Option Nat) :
    TransitionBuffer × Option (List (List (List Int))) :=
  let idx0 := List.range b.size
  let idx1 := if shuffle then shuffledIdx else idx0
  let idx := match batch_size with
    | some k => idx1.take k
    | none => idx1
  match gatherRows b.state_buf.rows idx, gatherRows b.action_buf.rows idx,
      gatherRows b.next_state_buf.rows idx, gatherRows b.reward_buf.rows idx,
      gatherRows b.done_buf.rows idx with
  | some s, some a, some ns, some r, some d => (b, some [s, a, ns, r, d])
  | _, _, _, _, _ => (b, none)

/-- The host-side arguments of one `insert_transition` call. -/
structure InsertArg where
  state : Tens
  action : Tens
  next_state : Tens
  reward : Int
  done : Bool
deriving DecidableEq, Repr

/-- A caller performing sequential `insert_transition` calls, stopping at the
first raised exception (which propagates to the caller). -/
def TransitionBuffer.insertSeq (b : TransitionBuffer) :
    List InsertArg → TransitionBuffer × Option PyError
  | [] => (b, none)
  | a :: rest =>
    match b.insert_transition a.state a.action a.next_state a.reward a.done with
    | (b', some e) => (b', some e)
    | (b', none) => b'.insertSeq rest

/-- Loop body of `insert_batch`: `for i in range(states.shape[0])`, indexing
the other four arrays at `i` (an `IndexError` when one is shorter) and
inserting; an exception aborts the loop with earlier rows committed. -/
def TransitionBuffer.insertBatchGo (b : TransitionBuffer)
    (actions next_states : List Tens) (rewards : List Int)
    (dones : List Bool) (i : Nat) :
    List Tens → TransitionBuffer × Option PyError
  | [] => (b, none)
  | st :: srest =>
    match actions[i]?, next_states[i]?, rewards[i]?, dones[i]? with
    | some a, some ns, some r, some d =>
      match b.insert_transition st a ns r d with
      | (b', some e) => (b', some e)
      | (b', none) =>
        b'.insertBatchGo actions next_states rewards dones (i + 1) srest
    | _, _, _, _ => (b, some .indexError)

/-- `TransitionBuffer.insert_batch`: apply `insert_transition` once per row
of the batch, in order. -/
def TransitionBuffer.insert_batch (b : TransitionBuffer)
    (states actions next_states : List Tens) (rewards : List Int)
    (dones : List Bool) : TransitionBuffer × Option PyError :=
  b.insertBatchGo actions next_states rewards dones 0 states

/-- A labelled dataset bundle carrying the five required keys. -/
structure Dataset where
  observations : List Tens
  actions : List Tens
  next_observations : List Tens
  rewards : List Int
  terminals : List Bool
deriving Repr

/-- `TransitionBuffer.insert_dataset`: extract the five named fields and
forward to `insert_batch`. -/
def TransitionBuffer.insert_dataset (b : TransitionBuffer) (ds : Dataset) :
    TransitionBuffer × Option PyError :=
  b.insert_batch ds.observations ds.actions ds.next_observations ds.rewards
    ds.terminals

/-- Zip five per-field columns into the corresponding per-row
`insert_transition` argument tuples. -/
def zipArgs : List Tens → List Tens → List Tens → List Int → List Bool →
    List InsertArg
  | s :: ss, a :: as, n :: ns, r :: rs, d :: ds =>
    ⟨s, a, n, r, d⟩ :: zipArgs ss as ns rs ds
  | _, _, _, _, _ => []

/-- Storage soundness of a buffer state: the logical count never exceeds any
field's physical row count (true of every state the code can reach). -/
def TransitionBuffer.WF (b : TransitionBuffer) : Prop :=
  b.size ≤ b.state_buf.rows.length ∧ b.size ≤ b.action_buf.rows.length ∧
  b.size ≤ b.next_state_buf.rows.length ∧ b.size ≤ b.reward_buf.rows.length ∧
  b.size ≤ b.done_buf.rows.length

instance (b : TransitionBuffer) : Decidable b.WF := by
  unfold TransitionBuffer.WF
  infer_instance

/-- The `DAggerBuffer` object state: the two-field (state, action) variant. -/
structure DAggerBuffer where
  state_shape : List Nat
  action_shape : List Nat
  discrete : Bool
  buffer_size : Nat
  state_buf : FieldBuf
  action_buf : FieldBuf
  ptr : Nat
  size : Nat
  total_size : Nat
deriving DecidableEq, Repr

/-- `DAggerBuffer.clear`. -/
def DAggerBuffer.clear (b : DAggerBuffer) : DAggerBuffer :=
  { b with
    state_buf := ⟨b.state_shape, []⟩
    action_buf := ⟨if b.discrete then [1] else b.action_shape, []⟩
    ptr := 0
    size := 0
    total_size := 0 }

/-- `DAggerBuffer.__init__`. -/
def DAggerBuffer.make (ss as : List Nat) (disc : Bool) (bs : Int) :
    DAggerBuffer :=
  DAggerBuffer.clear
    { state_shape := ss
      action_shape := as
      discrete := disc
      buffer_size := if bs = -1 then sysMaxsize else bs.toNat
      state_buf := ⟨[], []⟩
      action_buf := ⟨[], []⟩
      ptr := 0
      size := 0
      total_size := 0 }

/-- Cursor/counter update of `DAggerBuffer.insert_transition`. -/
def DAggerBuffer.advance (b : DAggerBuffer) : DAggerBuffer × Option PyError :=
  if b.buffer_size = 0 then (b, some .zeroDivisionError)
  else
    ({ b with
        ptr := (b.ptr + 1) % b.buffer_size
        size := min (b.size + 1) b.buffer_size
        total_size := b.total_size + 1 }, none)

/-- Storage-mutation step of `DAggerBuffer.insert_transition`. -/
def DAggerBuffer.storeStep (b : DAggerBuffer) (st act : Tens) :
    DAggerBuffer × Option PyError :=
  if b.total_size ≤ b.buffer_size then
    match b.state_buf.catRow st, b.action_buf.catRow act with
    | some sb, some ab =>
      ({ b with state_buf := sb, action_buf := ab }, none)
    | _, _ => (b, some .catShapeMismatch)
  else
    match b.state_buf.writeSlot b.ptr st with
    | .error e => (b, some e)
    | .ok sb =>
      match b.action_buf.writeSlot b.ptr act with
      | .error e => ({ b with state_buf := sb }, some e)
      | .ok ab => ({ b with state_buf := sb, action_buf := ab }, none)

/-- `DAggerBuffer.insert_transition`. -/
def DAggerBuffer.insert_transition (b : DAggerBuffer) (state action : Tens) :
    DAggerBuffer × Option PyError :=
  match b.storeStep state
      (if b.discrete then ⟨1 :: action.shape, action.data⟩ else action) with
  | (b', some e) => (b', some e)
  | (b', none) => b'.advance

/-- `DAggerBuffer.sample`. -/
def DAggerBuffer.sample (b : DAggerBuffer) (shuffledIdx : List Nat)
    (shuffle : Bool) (batch_size : Option Nat) :
    DAggerBuffer × Option (List (List (List Int))) :=
  let idx0 := List.range b.size
  let idx1 := if shuffle then shuffledIdx else idx0
  let idx := match batch_size with
    | some k => idx1.take k
    | none => idx1
  match gatherRows b.state_buf.rows idx, gatherRows b.action_buf.rows idx with
  | some s, some a => (b, some [s, a])
  | _, _ => (b, none)

/-- The host-side arguments of one `DAggerBuffer.insert_transition` call. -/
structure DInsertArg where
  state : Tens
  action : Tens
deriving DecidableEq, Repr

/-- Sequential `DAggerBuffer.insert_transition` calls, stopping at the first
raised exception. -/
def DAggerBuffer.insertSeq (b : DAggerBuffer) :
    List DInsertArg → DAggerBuffer × Option PyError
  | [] => (b, none)
  | a :: rest =>
    match b.insert_transition a.state a.action with
    | (b', some e) => (b', some e)
    | (b', none) => b'.insertSeq rest

/-! ### Basic lemmas about the storage primitives -/

theorem FieldBuf.catRow_rows_length {f g : FieldBuf} {t : Tens}
    (h : f.catRow t = some g) : g.rows.length = f.rows.length + 1 := by
  unfold FieldBuf.catRow at h
  split at h
  · rename_i hleg
    cases h
    simp [hleg.2]
  · split at h
    · cases h
      simp
    · cases h

theorem FieldBuf.catRow_shape_eq {f : FieldBuf} {t : Tens}
    (h : t.shape = f.eshape) :
    f.catRow t = some ⟨f.eshape, f.rows ++ [t.data]⟩ := by
  unfold FieldBuf.catRow
  by_cases hleg : f.eshape = [] ∧ f.rows = []
  · rw [if_pos hleg]
    simp [h, hleg.1, hleg.2]
  · rw [if_neg hleg, if_pos h]

theorem FieldBuf.catRow_eq_none {f : FieldBuf} {t : Tens}
    (hne : t.shape ≠ f.eshape)
    (hleg : ¬(f.eshape = [] ∧ f.rows = [])) : f.catRow t = none := by
  unfold FieldBuf.catRow
  rw [if_neg hleg, if_neg hne]

theorem TransitionBuffer.storeStep_counters (b : TransitionBuffer)
    (st act ns rew dn : Tens) :
    (b.storeStep st act ns rew dn).1.buffer_size = b.buffer_size ∧
    (b.storeStep st act ns rew dn).1.ptr = b.ptr ∧
    (b.storeStep st act ns rew dn).1.size = b.size ∧
    (b.storeStep st act ns rew dn).1.total_size = b.total_size := by
  unfold TransitionBuffer.storeStep
  repeat' split
  all_goals exact ⟨rfl, rfl, rfl, rfl⟩

theorem DAggerBuffer.storeStep_counters_dg (b : DAggerBuffer) (st act : Tens) :
    (b.storeStep st act).1.buffer_size = b.buffer_size ∧
    (b.storeStep st act).1.ptr = b.ptr ∧
    (b.storeStep st act).1.size = b.size ∧
    (b.storeStep st act).1.total_size = b.total_size := by
  unfold DAggerBuffer.storeStep
  repeat' split
  all_goals exact ⟨rfl, rfl, rfl, rfl⟩

theorem TransitionBuffer.insert_counters (b : TransitionBuffer)
    (st a ns : Tens) (r : Int) (dn : Bool) :
    (b.insert_transition st a ns r dn).1.buffer_size = b.buffer_size ∧
    ((b.insert_transition st a ns r dn).2 = none →
      (b.insert_transition st a ns r dn).1.size =
        min (b.size + 1) b.buffer_size ∧
      (b.insert_transition st a ns r dn).1.total_size = b.total_size + 1) ∧
    ((b.insert_transition st a ns r dn).2 ≠ none →
      (b.insert_transition st a ns r dn).1.size = b.size ∧
      (b.insert_transition st a ns r dn).1.total_size = b.total_size) := by
  have hc := b.storeStep_counters st
    (if b.discrete then ⟨1 :: a.shape, a.data⟩ else a) ns ⟨[1], [r]⟩
    ⟨[1], [if dn then 1 else 0]⟩
  unfold TransitionBuffer.insert_transition
  rcases hp : b.storeStep st
      (if b.discrete then ⟨1 :: a.shape, a.data⟩ else a) ns ⟨[1], [r]⟩
      ⟨[1], [if dn then 1 else 0]⟩ with ⟨b', e⟩
  rw [hp] at hc
  cases e with
  | some err => simp_all
  | none =>
    simp only
    unfold TransitionBuffer.advance
    rcases hc with ⟨h1, h2, h3, h4⟩
    split
    · simp_all
    · simp_all

theorem DAggerBuffer.insert_counters_dg (b : DAggerBuffer) (st a : Tens) :
    (b.insert_transition st a).1.buffer_size = b.buffer_size ∧
    ((b.insert_transition st a).2 = none →
      (b.insert_transition st a).1.size = min (b.size + 1) b.buffer_size ∧
      (b.insert_transition st a).1.total_size = b.total_size + 1) ∧
    ((b.insert_transition st a).2 ≠ none →
      (b.insert_transition st a).1.size = b.size ∧
      (b.insert_transition st a).1.total_size = b.total_size) := by
  have hc := DAggerBuffer.storeStep_counters_dg b st
    (if b.discrete then ⟨1 :: a.shape, a.data⟩ else a)
  unfold DAggerBuffer.insert_transition
  rcases hp : b.storeStep st
      (if b.discrete then ⟨1 :: a.shape, a.data⟩ else a) with ⟨b', e⟩
  rw [hp] at hc
  cases e with
  | some err => simp_all
  | none =>
    simp only
    unfold DAggerBuffer.advance
    rcases hc with ⟨h1, h2, h3, h4⟩
    split
    · simp_all
    · simp_all

/-! ### Lemmas about gathering -/

theorem gatherRows_append (rows : List (List Int)) :
    ∀ l1 l2, gatherRows rows (l1 ++ l2) =
      (gatherRows rows l1).bind
        (fun r1 => (gatherRows rows l2).map (fun r2 => r1 ++ r2))
  | [], l2 => by
    cases h : gatherRows rows l2 <;> simp [gatherRows, h]
  | i :: is, l2 => by
    have ih := gatherRows_append rows is l2
    cases hi : rows[i]? with
    | none => simp [gatherRows, hi]
    | some r =>
      cases h1 : gatherRows rows is with
      | none => simp [gatherRows, hi, h1, ih]
      | some o1 =>
        cases h2 : gatherRows rows l2 with
        | none => simp [gatherRows, hi, h1, h2, ih]
        | some o2 => simp [gatherRows, hi, h1, h2, ih]

theorem gatherRows_length (rows : List (List Int)) :
    ∀ idx out, gatherRows rows idx = some out → out.length = idx.length
  | [], out => by
    intro h
    have hout : out = [] := by simpa [gatherRows] using h.symm
    simp [hout]
  | i :: is, out => by
    intro h
    simp only [gatherRows] at h
    cases hi : rows[i]? with
    | none => rw [hi] at h; simp at h
    | some r =>
      rw [hi] at h
      cases hg : gatherRows rows is with
      | none => rw [hg] at h; simp at h
      | some rs =>
        rw [hg] at h
        simp at h
        have hrec := gatherRows_length rows is rs hg
        simp [← h, hrec]

theorem gatherRows_some (rows : List (List Int)) :
    ∀ idx, (∀ i ∈ idx, i < rows.length) →
      ∃ out, gatherRows rows idx = some out ∧ out.length = idx.length
  | [], _ => ⟨[], rfl, rfl⟩
  | i :: is, h => by
    have hi : i < rows.length := h i (by simp)
    obtain ⟨out, hg, hl⟩ :=
      gatherRows_some rows is (fun j hj => h j (by simp [hj]))
    exact ⟨rows[i] :: out, by
      simp [gatherRows, List.getElem?_eq_getElem hi, hg], by simp [hl]⟩

theorem gatherRows_range (rows : List (List Int)) :
    ∀ n, n ≤ rows.length → gatherRows rows (List.range n) = some (rows.take n)
  | 0, _ => by simp [gatherRows]
  | n + 1, h => by
    have hn : n < rows.length := h
    rw [List.range_succ, gatherRows_append rows (List.range n) [n],
      gatherRows_range rows n (Nat.le_of_lt hn)]
    have h1 : gatherRows rows [n] = some [rows[n]] := by
      simp [gatherRows, List.getElem?_eq_getElem hn]
    rw [h1, List.take_succ, List.getElem?_eq_getElem hn]
    simp

/-! ### The append branch and sequences of insertions -/

theorem TransitionBuffer.insert_append_ok (b : TransitionBuffer)
    (st a ns : Tens) (r : Int) (dn : Bool)
    (hcap : b.buffer_size ≠ 0) (hle : b.total_size ≤ b.buffer_size)
    (hst : st.shape = b.state_buf.eshape)
    (hact : (if b.discrete then 1 :: a.shape else a.shape) =
      b.action_buf.eshape)
    (hns : ns.shape = b.next_state_buf.eshape)
    (hrw : b.reward_buf.eshape = [1]) (hdn : b.done_buf.eshape = [1]) :
    b.insert_transition st a ns r dn =
      ({ b with
          state_buf := ⟨b.state_buf.eshape, b.state_buf.rows ++ [st.data]⟩
          action_buf := ⟨b.action_buf.eshape, b.action_buf.rows ++ [a.data]⟩
          next_state_buf :=
            ⟨b.next_state_buf.eshape, b.next_state_buf.rows ++ [ns.data]⟩
          reward_buf := ⟨b.reward_buf.eshape, b.reward_buf.rows ++ [[r]]⟩
          done_buf := ⟨b.done_buf.eshape,
            b.done_buf.rows ++ [[if dn then (1 : Int) else 0]]⟩
          ptr := (b.ptr + 1) % b.buffer_size
          size := min (b.size + 1) b.buffer_size
          total_size := b.total_size + 1 }, none) := by
  have hact' : (if b.discrete then (⟨1 :: a.shape, a.data⟩ : Tens)
      else a).shape = b.action_buf.eshape := by
    cases hd : b.discrete <;> rw [hd] at hact <;> simpa using hact
  have hactd : (if b.discrete then (⟨1 :: a.shape, a.data⟩ : Tens)
      else a).data = a.data := by
    cases b.discrete <;> rfl
  unfold TransitionBuffer.insert_transition TransitionBuffer.storeStep
    TransitionBuffer.advance
  rw [if_pos hle, FieldBuf.catRow_shape_eq hst,
    FieldBuf.catRow_shape_eq hact', FieldBuf.catRow_shape_eq hns,
    FieldBuf.catRow_shape_eq
      (show Tens.shape ⟨[1], [r]⟩ = b.reward_buf.eshape from hrw.symm),
    FieldBuf.catRow_shape_eq
      (show Tens.shape ⟨[1], [if dn then (1 : Int) else 0]⟩ =
        b.done_buf.eshape from hdn.symm)]
  simp only [hactd]
  rw [if_neg hcap]

theorem TransitionBuffer.insertSeq_size_inv :
    ∀ (args : List InsertArg) (b : TransitionBuffer),
    b.size = min b.total_size b.buffer_size →
    (b.insertSeq args).1.size =
      min (b.insertSeq args).1.total_size (b.insertSeq args).1.buffer_size ∧
    (b.insertSeq args).1.buffer_size = b.buffer_size ∧
    (b.insertSeq args).1.total_size ≤ b.total_size + args.length
  | [], b, h => by simpa [TransitionBuffer.insertSeq] using h
  | a :: rest, b, h => by
    have hc :=
      b.insert_counters a.state a.action a.next_state a.reward a.done
    rcases hins : b.insert_transition a.state a.action a.next_state a.reward
        a.done with ⟨b', e⟩
    rw [hins] at hc
    dsimp only at hc
    rcases hc with ⟨hbs, hok, herr⟩
    cases e with
    | some err =>
      obtain ⟨h1, h2⟩ := herr (by simp)
      simp only [TransitionBuffer.insertSeq, hins]
      refine ⟨?_, hbs, by simp only [List.length_cons]; omega⟩
      rw [h1, h2, hbs, h]
    | none =>
      obtain ⟨h1, h2⟩ := hok rfl
      simp only [TransitionBuffer.insertSeq, hins]
      have h' : b'.size = min b'.total_size b'.buffer_size := by
        rw [h1, h2, hbs, h]
        omega
      obtain ⟨g1, g2, g3⟩ := TransitionBuffer.insertSeq_size_inv rest b' h'
      refine ⟨g1, by rw [g2, hbs],
        by rw [h2] at g3; simp only [List.length_cons]; omega⟩

theorem DAggerBuffer.insertSeq_size_inv_dg :
    ∀ (args : List DInsertArg) (b : DAggerBuffer),
    b.size = min b.total_size b.buffer_size →
    (b.insertSeq args).1.size =
      min (b.insertSeq args).1.total_size (b.insertSeq args).1.buffer_size ∧
    (b.insertSeq args).1.buffer_size = b.buffer_size ∧
    (b.insertSeq args).1.total_size ≤ b.total_size + args.length
  | [], b, h => by simpa [DAggerBuffer.insertSeq] using h
  | a :: rest, b, h => by
    have hc := DAggerBuffer.insert_counters_dg b a.state a.action
    rcases hins : b.insert_transition a.state a.action with ⟨b', e⟩
    rw [hins] at hc
    dsimp only at hc
    rcases hc with ⟨hbs, hok, herr⟩
    cases e with
    | some err =>
      obtain ⟨h1, h2⟩ := herr (by simp)
      simp only [DAggerBuffer.insertSeq, hins]
      refine ⟨?_, hbs, by simp only [List.length_cons]; omega⟩
      rw [h1, h2, hbs, h]
    | none =>
      obtain ⟨h1, h2⟩ := hok rfl
      simp only [DAggerBuffer.insertSeq, hins]
      have h' : b'.size = min b'.total_size b'.buffer_size := by
        rw [h1, h2, hbs, h]
        omega
      obtain ⟨g1, g2, g3⟩ := DAggerBuffer.insertSeq_size_inv_dg rest b' h'
      refine ⟨g1, by rw [g2, hbs],
        by rw [h2] at g3; simp only [List.length_cons]; omega⟩

theorem TransitionBuffer.insertSeq_append_all :
    ∀ (args : List InsertArg) (b : TransitionBuffer),
    b.buffer_size ≠ 0 → b.size = b.total_size →
    b.total_size + args.length ≤ b.buffer_size →
    b.reward_buf.eshape = [1] → b.done_buf.eshape = [1] →
    (∀ x ∈ args, x.state.shape = b.state_buf.eshape ∧
      (if b.discrete then 1 :: x.action.shape else x.action.shape) =
        b.action_buf.eshape ∧
      x.next_state.shape = b.next_state_buf.eshape) →
    (b.insertSeq args).2 = none ∧
    (b.insertSeq args).1.total_size = b.total_size + args.length ∧
    (b.insertSeq args).1.size = b.size + args.length ∧
    (b.insertSeq args).1.state_buf.rows =
      b.state_buf.rows ++ args.map (fun x => x.state.data)
  | [], b, _, _, _, _, _, _ => by simp [TransitionBuffer.insertSeq]
  | a :: rest, b, hcap, hsz, hlen, hrw, hdn, hsh => by
    have hlen' : b.total_size + (rest.length + 1) ≤ b.buffer_size := by
      simpa [List.length_cons] using hlen
    have hx := hsh a (by simp)
    have hb := b.insert_append_ok a.state a.action a.next_state a.reward
      a.done hcap (by omega) hx.1 hx.2.1 hx.2.2 hrw hdn
    simp only [TransitionBuffer.insertSeq, hb]
    have hmin : min (b.size + 1) b.buffer_size = b.size + 1 := by
      rw [hsz]; omega
    obtain ⟨g1, g2, g3, g4⟩ := TransitionBuffer.insertSeq_append_all rest
      { b with
        state_buf := ⟨b.state_buf.eshape, b.state_buf.rows ++ [a.state.data]⟩
        action_buf :=
          ⟨b.action_buf.eshape, b.action_buf.rows ++ [a.action.data]⟩
        next_state_buf := ⟨b.next_state_buf.eshape,
          b.next_state_buf.rows ++ [a.next_state.data]⟩
        reward_buf := ⟨b.reward_buf.eshape, b.reward_buf.rows ++ [[a.reward]]⟩
        done_buf := ⟨b.done_buf.eshape,
          b.done_buf.rows ++ [[if a.done then (1 : Int) else 0]]⟩
        ptr := (b.ptr + 1) % b.buffer_size
        size := min (b.size + 1) b.buffer_size
        total_size := b.total_size + 1 }
      hcap (by dsimp only; rw [hmin, hsz]) (by simp; omega) hrw hdn
      (fun x hxr => hsh x (by simp [hxr]))
    refine ⟨g1, ?_, ?_, ?_⟩
    · rw [g2]; simp; omega
    · rw [g3]; simp [hmin]; omega
    · rw [g4]; simp

theorem TransitionBuffer.insertBatchGo_eq_seq :
    ∀ (s : List Tens) (i : Nat) (a ns : List Tens) (r : List Int)
      (d : List Bool) (b : TransitionBuffer),
    s.length = (a.drop i).length → s.length = (ns.drop i).length →
    s.length = (r.drop i).length → s.length = (d.drop i).length →
    b.insertBatchGo a ns r d i s =
      b.insertSeq (zipArgs s (a.drop i) (ns.drop i) (r.drop i) (d.drop i))
  | [], i, a, ns, r, d, b => fun h1 h2 h3 h4 => by
    obtain ⟨ha⟩ : a.drop i = [] ∧ True :=
      ⟨List.length_eq_zero.mp h1.symm, trivial⟩
    obtain ⟨hn⟩ : ns.drop i = [] ∧ True :=
      ⟨List.length_eq_zero.mp h2.symm, trivial⟩
    obtain ⟨hr⟩ : r.drop i = [] ∧ True :=
      ⟨List.length_eq_zero.mp h3.symm, trivial⟩
    obtain ⟨hd⟩ : d.drop i = [] ∧ True :=
      ⟨List.length_eq_zero.mp h4.symm, trivial⟩
    rw [ha, hn, hr, hd]
    rfl
  | st :: srest, i, a, ns, r, d, b => fun h1 h2 h3 h4 => by
    obtain ⟨a0, atail, ha⟩ : ∃ x xs, a.drop i = x :: xs := by
      cases hd : a.drop i
      · rw [hd] at h1; simp at h1
      · exact ⟨_, _, rfl⟩
    obtain ⟨n0, ntail, hn⟩ : ∃ x xs, ns.drop i = x :: xs := by
      cases hd : ns.drop i
      · rw [hd] at h2; simp at h2
      · exact ⟨_, _, rfl⟩
    obtain ⟨r0, rtail, hr⟩ : ∃ x xs, r.drop i = x :: xs := by
      cases hd : r.drop i
      · rw [hd] at h3; simp at h3
      · exact ⟨_, _, rfl⟩
    obtain ⟨d0, dtail, hdd⟩ : ∃ x xs, d.drop i = x :: xs := by
      cases hd : d.drop i
      · rw [hd] at h4; simp at h4
      · exact ⟨_, _, rfl⟩
    have ha' : a[i]? = some a0 := by rw [← List.head?_drop, ha]; rfl
    have hn' : ns[i]? = some n0 := by rw [← List.head?_drop, hn]; rfl
    have hr' : r[i]? = some r0 := by rw [← List.head?_drop, hr]; rfl
    have hd' : d[i]? = some d0 := by rw [← List.head?_drop, hdd]; rfl
    have hat : a.drop (i + 1) = atail := by
      rw [← List.drop_drop 1 i a, ha, List.drop_one]; rfl
    have hnt : ns.drop (i + 1) = ntail := by
      rw [← List.drop_drop 1 i ns, hn, List.drop_one]; rfl
    have hrt : r.drop (i + 1) = rtail := by
      rw [← List.drop_drop 1 i r, hr, List.drop_one]; rfl
    have hdt : d.drop (i + 1) = dtail := by
      rw [← List.drop_drop 1 i d, hdd, List.drop_one]; rfl
    rw [ha] at h1
    rw [hn] at h2
    rw [hr] at h3
    rw [hdd] at h4
    rw [ha, hn, hr, hdd]
    simp only [List.length_cons, Nat.succ.injEq] at h1 h2 h3 h4
    simp only [TransitionBuffer.insertBatchGo, ha', hn', hr', hd', zipArgs,
      TransitionBuffer.insertSeq]
    rcases hins : b.insert_transition st a0 n0 r0 d0 with ⟨b', e⟩
    cases e with
    | some err => rfl
    | none =>
      dsimp only
      have := TransitionBuffer.insertBatchGo_eq_seq srest (i + 1) a ns r d b'
        (by rw [hat]; exact h1) (by rw [hnt]; exact h2)
        (by rw [hrt]; exact h3) (by rw [hdt]; exact h4)
      rw [this, hat, hnt, hrt, hdt]

/-! ### Well-formedness of reachable states -/

theorem FieldBuf.writeSlot_ok {f g : FieldBuf} {i : Nat} {t : Tens}
    (h : f.writeSlot i t = .ok g) :
    g.eshape = f.eshape ∧ g.rows.length = f.rows.length := by
  unfold FieldBuf.writeSlot at h
  split at h
  · split at h
    · cases h
      simp
    · cases h
  · cases h

theorem TransitionBuffer.storeStep_lengths (b : TransitionBuffer)
    (st act ns rew dn : Tens) :
    (b.state_buf.rows.length ≤
        (b.storeStep st act ns rew dn).1.state_buf.rows.length ∧
      b.action_buf.rows.length ≤
        (b.storeStep st act ns rew dn).1.action_buf.rows.length ∧
      b.next_state_buf.rows.length ≤
        (b.storeStep st act ns rew dn).1.next_state_buf.rows.length ∧
      b.reward_buf.rows.length ≤
        (b.storeStep st act ns rew dn).1.reward_buf.rows.length ∧
      b.done_buf.rows.length ≤
        (b.storeStep st act ns rew dn).1.done_buf.rows.length) ∧
    ((b.storeStep st act ns rew dn).2 = none →
      b.total_size ≤ b.buffer_size →
      b.state_buf.rows.length + 1 ≤
        (b.storeStep st act ns rew dn).1.state_buf.rows.length ∧
      b.action_buf.rows.length + 1 ≤
        (b.storeStep st act ns rew dn).1.action_buf.rows.length ∧
      b.next_state_buf.rows.length + 1 ≤
        (b.storeStep st act ns rew dn).1.next_state_buf.rows.length ∧
      b.reward_buf.rows.length + 1 ≤
        (b.storeStep st act ns rew dn).1.reward_buf.rows.length ∧
      b.done_buf.rows.length + 1 ≤
        (b.storeStep st act ns rew dn).1.done_buf.rows.length) := by
  unfold TransitionBuffer.storeStep
  split
  · split
    · rename_i hsb hab hnb hrb hdb
      have hsb' := FieldBuf.catRow_rows_length hsb
      have hab' := FieldBuf.catRow_rows_length hab
      have hnb' := FieldBuf.catRow_rows_length hnb
      have hrb' := FieldBuf.catRow_rows_length hrb
      have hdb' := FieldBuf.catRow_rows_length hdb
      refine ⟨⟨?_, ?_, ?_, ?_, ?_⟩, fun _ _ => ⟨?_, ?_, ?_, ?_, ?_⟩⟩ <;>
        (dsimp only; omega)
    · simp
  · rename_i hgt
    split
    · simp
    · rename_i hsb
      obtain ⟨_, hsb'⟩ := FieldBuf.writeSlot_ok hsb
      split
      · simp [hsb']
      · rename_i hab
        obtain ⟨_, hab'⟩ := FieldBuf.writeSlot_ok hab
        split
        · simp [hsb', hab']
        · rename_i hnb
          obtain ⟨_, hnb'⟩ := FieldBuf.writeSlot_ok hnb
          split
          · simp [hsb', hab', hnb']
          · rename_i hrb
            obtain ⟨_, hrb'⟩ := FieldBuf.writeSlot_ok hrb
            split
            · simp [hsb', hab', hnb', hrb']
            · rename_i hdb
              obtain ⟨_, hdb'⟩ := FieldBuf.writeSlot_ok hdb
              refine ⟨⟨by simp [hsb'], by simp [hab'], by simp [hnb'],
                by simp [hrb'], by simp [hdb']⟩, fun _ hle => absurd hle hgt⟩

theorem TransitionBuffer.insert_WF (b : TransitionBuffer)
    (st a ns : Tens) (r : Int) (dn : Bool)
    (hwf : b.WF) (hmin : b.size = min b.total_size b.buffer_size) :
    (b.insert_transition st a ns r dn).1.WF ∧
    (b.insert_transition st a ns r dn).1.size =
      min (b.insert_transition st a ns r dn).1.total_size
        (b.insert_transition st a ns r dn).1.buffer_size := by
  obtain ⟨w1, w2, w3, w4, w5⟩ := hwf
  have hlen := b.storeStep_lengths st
    (if b.discrete then ⟨1 :: a.shape, a.data⟩ else a) ns ⟨[1], [r]⟩
    ⟨[1], [if dn then 1 else 0]⟩
  have hcnt := b.storeStep_counters st
    (if b.discrete then ⟨1 :: a.shape, a.data⟩ else a) ns ⟨[1], [r]⟩
    ⟨[1], [if dn then 1 else 0]⟩
  unfold TransitionBuffer.insert_transition
  rcases hss : b.storeStep st
      (if b.discrete then ⟨1 :: a.shape, a.data⟩ else a) ns ⟨[1], [r]⟩
      ⟨[1], [if dn then 1 else 0]⟩ with ⟨b', e⟩
  rw [hss] at hlen hcnt
  dsimp only at hlen hcnt
  obtain ⟨⟨l1, l2, l3, l4, l5⟩, lsucc⟩ := hlen
  obtain ⟨c1, c2, c3, c4⟩ := hcnt
  cases e with
  | some err =>
    refine ⟨⟨?_, ?_, ?_, ?_, ?_⟩, ?_⟩ <;>
      simp only [TransitionBuffer.WF] <;> omega
  | none =>
    dsimp only
    unfold TransitionBuffer.advance
    split
    · rename_i hz
      refine ⟨⟨?_, ?_, ?_, ?_, ?_⟩, ?_⟩ <;> (dsimp only; omega)
    · rename_i hz
      by_cases hle : b.total_size ≤ b.buffer_size
      · obtain ⟨s1, s2, s3, s4, s5⟩ := lsucc rfl (by omega)
        refine ⟨⟨?_, ?_, ?_, ?_, ?_⟩, ?_⟩ <;>
          simp only [TransitionBuffer.WF] <;> omega
      · refine ⟨⟨?_, ?_, ?_, ?_, ?_⟩, ?_⟩ <;>
          simp only [TransitionBuffer.WF] <;> omega

theorem TransitionBuffer.insertSeq_WF :
    ∀ (args : List InsertArg) (b : TransitionBuffer),
    b.WF → b.size = min b.total_size b.buffer_size →
    (b.insertSeq args).1.WF
  | [], b, hwf, _ => by simpa [TransitionBuffer.insertSeq] using hwf
  | a :: rest, b, hwf, hmin => by
    have hstep := b.insert_WF a.state a.action a.next_state a.reward a.done
      hwf hmin
    rcases hins : b.insert_transition a.state a.action a.next_state a.reward
        a.done with ⟨b', e⟩
    rw [hins] at hstep
    dsimp only at hstep
    cases e with
    | some err => simpa [TransitionBuffer.insertSeq, hins] using hstep.1
    | none =>
      simp only [TransitionBuffer.insertSeq, hins]
      exact TransitionBuffer.insertSeq_WF rest b' hstep.1 hstep.2

theorem TransitionBuffer.make_WF (ss as : List Nat) (disc : Bool) (bs : Int) :
    (TransitionBuffer.make ss as disc bs).WF ∧
    (TransitionBuffer.make ss as disc bs).size =
      min (TransitionBuffer.make ss as disc bs).total_size
        (TransitionBuffer.make ss as disc bs).buffer_size := by
  simp [TransitionBuffer.make, TransitionBuffer.clear, TransitionBuffer.WF]

/-! ### Claim theorems -/

/-- Shared scenario: a capacity-3 discrete-action buffer (state shape `(1,)`)
receiving four insertions with states `[0]`, `[1]`, `[2]`, `[3]`. -/
def fourArgs : List InsertArg :=
  [⟨⟨[1], [0]⟩, ⟨[], [0]⟩, ⟨[1], [1]⟩, 0, false⟩,
   ⟨⟨[1], [1]⟩, ⟨[], [0]⟩, ⟨[1], [2]⟩, 0, false⟩,
   ⟨⟨[1], [2]⟩, ⟨[], [0]⟩, ⟨[1], [3]⟩, 0, false⟩,
   ⟨⟨[1], [3]⟩, ⟨[], [0]⟩, ⟨[1], [4]⟩, 0, false⟩]

/-- The buffer state after the four insertions of `fourArgs`. -/
def cap3buf : TransitionBuffer :=
  ((TransitionBuffer.make [1] [] true 3).insertSeq fourArgs).1

/-- C1: the claim expects the 4th insertion into a capacity-3 buffer to
overwrite slot 0, leaving states `[3],[1],[2]` in slot order.  The code
instead appends a 4th physical row (the guard `total_size <= buffer_size`
uses `<=` where a ring buffer needs `<`), so the stored states in slot order
are `[0],[1],[2],[3]`, slot 0 still holds `[0]`, and sampling (which reads
only slots `0..size-1 = 0..2`) can never return the most recent item `[3]`.
`count = 3` and `total_inserted = 4` do hold. -/
theorem claim_c1_scenario :
    cap3buf.size = 3 ∧ cap3buf.total_size = 4 ∧
    cap3buf.state_buf.rows = [[0], [1], [2], [3]] ∧
    cap3buf.state_buf.rows ≠ [[3], [1], [2]] ∧
    (cap3buf.sample [] false none).2 =
      some [[[0], [1], [2]], [[0], [0], [0]], [[1], [2], [3]],
        [[0], [0], [0]], [[0], [0], [0]]] := by
  decide

/-- C2: the claim says every per-field array has leading length equal to
`count`.  After the 4th insertion into a capacity-3 buffer all five arrays
have leading length 4 while `count = 3`, so the invariant fails (the arrays
do still share a common leading length). -/
theorem claim_c2_lengths :
    cap3buf.state_buf.rows.length = 4 ∧
    cap3buf.action_buf.rows.length = 4 ∧
    cap3buf.next_state_buf.rows.length = 4 ∧
    cap3buf.reward_buf.rows.length = 4 ∧
    cap3buf.done_buf.rows.length = 4 ∧
    cap3buf.size = 3 ∧
    cap3buf.state_buf.rows.length ≠ cap3buf.size := by
  decide

/-- C10: a buffer constructed with `buffer_size = 0` is accepted (only the
dtype is asserted, and only `-1` maps to the unbounded sentinel, so 0 is
kept as the capacity), and the first `insert_transition` appends its row and
then raises `ZeroDivisionError` at `(ptr + 1) % buffer_size`, leaving the
counters at zero.  Both classes behave identically. -/
theorem claim_c10_zero_capacity :
    (TransitionBuffer.make [1] [1] false 0).buffer_size = 0 ∧
    (TransitionBuffer.make [1] [1] false 0).buffer_size ≠ sysMaxsize ∧
    (TransitionBuffer.make [1] [1] false 0).size = 0 ∧
    (TransitionBuffer.make [1] [1] false 0).total_size = 0 ∧
    ((TransitionBuffer.make [1] [1] false 0).insert_transition
        ⟨[1], [5]⟩ ⟨[1], [7]⟩ ⟨[1], [6]⟩ 0 false).2 =
      some PyError.zeroDivisionError ∧
    ((TransitionBuffer.make [1] [1] false 0).insert_transition
        ⟨[1], [5]⟩ ⟨[1], [7]⟩ ⟨[1], [6]⟩ 0 false).1.state_buf.rows =
      [[5]] ∧
    ((TransitionBuffer.make [1] [1] false 0).insert_transition
        ⟨[1], [5]⟩ ⟨[1], [7]⟩ ⟨[1], [6]⟩ 0 false).1.total_size = 0 ∧
    (DAggerBuffer.make [1] [1] false 0).buffer_size = 0 ∧
    ((DAggerBuffer.make [1] [1] false 0).insert_transition
        ⟨[1], [5]⟩ ⟨[1], [7]⟩).2 = some PyError.zeroDivisionError := by
  decide

/-- C7: `sample` never mutates the buffer: the post-call object state (the
first component of the embedded method) equals the pre-call state for every
buffer state and every argument combination, for both classes. -/
theorem claim_c7_sample_pure :
    (∀ (b : TransitionBuffer) (idx : List Nat) (sh : Bool)
      (bs : Option Nat), (b.sample idx sh bs).1 = b) ∧
    (∀ (d : DAggerBuffer) (idx : List Nat) (sh : Bool)
      (bs : Option Nat), (d.sample idx sh bs).1 = d) := by
  constructor
  · intro b idx sh bs
    simp only [TransitionBuffer.sample]
    repeat' split
    all_goals rfl
  · intro d idx sh bs
    simp only [DAggerBuffer.sample]
    repeat' split
    all_goals rfl

/-- C3: after every sequence of insertions (stopping at the first raised
error, as a caller would) `count = min(total_inserted, buffer_size)`, where
`buffer_size` is `sys.maxsize` for an unbounded buffer; consequently an
unbounded buffer that has received at most `sys.maxsize` insertions has
`count = total_inserted`.  Both classes satisfy the invariant. -/
theorem claim_c3_count_min :
    (∀ (ss as : List Nat) (disc : Bool) (bs : Int) (args : List InsertArg),
      ((TransitionBuffer.make ss as disc bs).insertSeq args).1.size =
        min ((TransitionBuffer.make ss as disc bs).insertSeq args).1.total_size
          ((TransitionBuffer.make ss as disc bs).insertSeq args).1.buffer_size
      ∧ (bs = -1 → args.length ≤ sysMaxsize →
        ((TransitionBuffer.make ss as disc bs).insertSeq args).1.size =
          ((TransitionBuffer.make ss as disc bs).insertSeq
            args).1.total_size)) ∧
    (∀ (ss as : List Nat) (disc : Bool) (bs : Int) (args : List DInsertArg),
      ((DAggerBuffer.make ss as disc bs).insertSeq args).1.size =
        min ((DAggerBuffer.make ss as disc bs).insertSeq args).1.total_size
          ((DAggerBuffer.make ss as disc bs).insertSeq args).1.buffer_size
      ∧ (bs = -1 → args.length ≤ sysMaxsize →
        ((DAggerBuffer.make ss as disc bs).insertSeq args).1.size =
          ((DAggerBuffer.make ss as disc bs).insertSeq args).1.total_size)) := by
  constructor
  · intro ss as disc bs args
    obtain ⟨g1, g2, g3⟩ := TransitionBuffer.insertSeq_size_inv args
      (TransitionBuffer.make ss as disc bs)
      (by simp [TransitionBuffer.make, TransitionBuffer.clear])
    refine ⟨g1, fun hbs hargs => ?_⟩
    rw [g1, g2]
    have hcap : (TransitionBuffer.make ss as disc bs).buffer_size =
        sysMaxsize := by
      simp [TransitionBuffer.make, TransitionBuffer.clear, hbs]
    have htot : ((TransitionBuffer.make ss as disc bs).insertSeq
        args).1.total_size ≤ args.length := by
      simpa [TransitionBuffer.make, TransitionBuffer.clear] using g3
    rw [hcap]
    omega
  · intro ss as disc bs args
    obtain ⟨g1, g2, g3⟩ := DAggerBuffer.insertSeq_size_inv_dg args
      (DAggerBuffer.make ss as disc bs)
      (by simp [DAggerBuffer.make, DAggerBuffer.clear])
    refine ⟨g1, fun hbs hargs => ?_⟩
    rw [g1, g2]
    have hcap : (DAggerBuffer.make ss as disc bs).buffer_size =
        sysMaxsize := by
      simp [DAggerBuffer.make, DAggerBuffer.clear, hbs]
    have htot : ((DAggerBuffer.make ss as disc bs).insertSeq
        args).1.total_size ≤ args.length := by
      simpa [DAggerBuffer.make, DAggerBuffer.clear] using g3
    rw [hcap]
    omega

/-- C3 witness: the invariant evaluated on a concrete unbounded buffer after
the four insertions of `fourArgs`. -/
theorem claim_c3_witness :
    (((TransitionBuffer.make [1] [] true (-1)).insertSeq fourArgs).1.size =
      min ((TransitionBuffer.make [1] [] true (-1)).insertSeq
          fourArgs).1.total_size
        ((TransitionBuffer.make [1] [] true (-1)).insertSeq
          fourArgs).1.buffer_size) ∧
    ((TransitionBuffer.make [1] [] true (-1)).insertSeq fourArgs).1.size =
      ((TransitionBuffer.make [1] [] true (-1)).insertSeq
        fourArgs).1.total_size :=
  ⟨(claim_c3_count_min.1 [1] [] true (-1) fourArgs).1,
   (claim_c3_count_min.1 [1] [] true (-1) fourArgs).2 rfl (by decide)⟩

/-- C8: an unbounded buffer (`buffer_size = -1` sentinel) never reaches the
overwrite branch over any insertion sequence of realizable length (at most
`sys.maxsize` calls): every insertion succeeds as a pure append of
well-shaped data, no stored entry is replaced (the state storage is exactly
the inserted states in order), and `count = total_inserted = n`. -/
theorem claim_c8_unbounded_append (ss as : List Nat) (disc : Bool)
    (args : List InsertArg)
    (hlen : args.length ≤ sysMaxsize)
    (hsh : ∀ x ∈ args, x.state.shape = ss ∧
      (if disc then x.action.shape = ([] : List Nat)
        else x.action.shape = as) ∧
      x.next_state.shape = ss) :
    ((TransitionBuffer.make ss as disc (-1)).insertSeq args).2 = none ∧
    ((TransitionBuffer.make ss as disc (-1)).insertSeq args).1.total_size =
      args.length ∧
    ((TransitionBuffer.make ss as disc (-1)).insertSeq args).1.size =
      args.length ∧
    ((TransitionBuffer.make ss as disc (-1)).insertSeq
        args).1.state_buf.rows = args.map (fun x => x.state.data) := by
  have h := TransitionBuffer.insertSeq_append_all args
    (TransitionBuffer.make ss as disc (-1))
    (by simp [TransitionBuffer.make, TransitionBuffer.clear]; decide)
    (by simp [TransitionBuffer.make, TransitionBuffer.clear])
    (by simpa [TransitionBuffer.make, TransitionBuffer.clear] using hlen)
    (by simp [TransitionBuffer.make, TransitionBuffer.clear])
    (by simp [TransitionBuffer.make, TransitionBuffer.clear])
    (by
      intro x hx
      obtain ⟨h1, h2, h3⟩ := hsh x hx
      refine ⟨by simpa [TransitionBuffer.make, TransitionBuffer.clear]
        using h1, ?_, by simpa [TransitionBuffer.make,
          TransitionBuffer.clear] using h3⟩
      simp only [TransitionBuffer.make, TransitionBuffer.clear]
      cases disc with
      | false => simpa using h2
      | true => simp at h2; simp [h2])
  obtain ⟨g1, g2, g3, g4⟩ := h
  refine ⟨g1, ?_, ?_, ?_⟩
  · rw [g2]; simp [TransitionBuffer.make, TransitionBuffer.clear]
  · rw [g3]; simp [TransitionBuffer.make, TransitionBuffer.clear]
  · rw [g4]; simp [TransitionBuffer.make, TransitionBuffer.clear]

/-- A well-shaped discrete-action insertion used for the C8 witness. -/
def c8arg : InsertArg := ⟨⟨[1], [7]⟩, ⟨[], [2]⟩, ⟨[1], [8]⟩, 1, true⟩

/-- C8 witness: 1000 insertions into an unbounded buffer (the scenario of
the spec), instantiating every hypothesis concretely. -/
theorem claim_c8_witness :
    (List.replicate 1000 c8arg).length ≤ sysMaxsize ∧
    (((TransitionBuffer.make [1] [] true (-1)).insertSeq
        (List.replicate 1000 c8arg)).2 = none ∧
      ((TransitionBuffer.make [1] [] true (-1)).insertSeq
        (List.replicate 1000 c8arg)).1.total_size =
        (List.replicate 1000 c8arg).length ∧
      ((TransitionBuffer.make [1] [] true (-1)).insertSeq
        (List.replicate 1000 c8arg)).1.size =
        (List.replicate 1000 c8arg).length ∧
      ((TransitionBuffer.make [1] [] true (-1)).insertSeq
        (List.replicate 1000 c8arg)).1.state_buf.rows =
        (List.replicate 1000 c8arg).map (fun x => x.state.data)) :=
  ⟨by rw [List.length_replicate]; decide,
   claim_c8_unbounded_append [1] [] true (List.replicate 1000 c8arg)
     (by rw [List.length_replicate]; decide)
     (fun x hx => by rw [List.eq_of_mem_replicate hx]; decide)⟩

/-- C9: on a dataset bundle whose five fields all carry `N` rows,
`insert_dataset` produces exactly the same result (buffer state and raised
error alike) as the `N` sequential `insert_transition` calls on the
row-tuples in order. -/
theorem claim_c9_dataset_equiv (b : TransitionBuffer) (ds : Dataset)
    (h1 : ds.actions.length = ds.observations.length)
    (h2 : ds.next_observations.length = ds.observations.length)
    (h3 : ds.rewards.length = ds.observations.length)
    (h4 : ds.terminals.length = ds.observations.length) :
    b.insert_dataset ds =
      b.insertSeq (zipArgs ds.observations ds.actions ds.next_observations
        ds.rewards ds.terminals) := by
  unfold TransitionBuffer.insert_dataset TransitionBuffer.insert_batch
  have h := TransitionBuffer.insertBatchGo_eq_seq ds.observations 0 ds.actions
    ds.next_observations ds.rewards ds.terminals b
    (by simpa using h1.symm) (by simpa using h2.symm)
    (by simpa using h3.symm) (by simpa using h4.symm)
  simpa using h

/-- A concrete two-row dataset bundle for the C9 witness. -/
def c9ds : Dataset :=
  ⟨[⟨[1], [4]⟩, ⟨[1], [5]⟩], [⟨[], [0]⟩, ⟨[], [1]⟩],
   [⟨[1], [5]⟩, ⟨[1], [6]⟩], [0, 1], [false, true]⟩

/-- C9 witness: the equivalence evaluated on a concrete two-row dataset. -/
theorem claim_c9_witness :
    c9ds.actions.length = c9ds.observations.length ∧
    c9ds.next_observations.length = c9ds.observations.length ∧
    c9ds.rewards.length = c9ds.observations.length ∧
    c9ds.terminals.length = c9ds.observations.length ∧
    (TransitionBuffer.make [1] [] true 3).insert_dataset c9ds =
      (TransitionBuffer.make [1] [] true 3).insertSeq
        (zipArgs c9ds.observations c9ds.actions c9ds.next_observations
          c9ds.rewards c9ds.terminals) :=
  ⟨rfl, rfl, rfl, rfl,
   claim_c9_dataset_equiv (TransitionBuffer.make [1] [] true 3) c9ds
     rfl rfl rfl rfl⟩

/-- C6: with `shuffle = false` and no batch size, `sample` succeeds and
returns, for each of the five per-field arrays, exactly the rows in slots
`0 .. count-1` in slot order (`rows.take size`); the buffer is unchanged.
The `WF` hypothesis (count bounded by the physical row counts) holds for
every reachable state (see the well-formedness lemmas above). -/
theorem claim_c6_sample_order (b : TransitionBuffer) (perm : List Nat)
    (hwf : b.WF) :
    b.sample perm false none =
      (b, some [b.state_buf.rows.take b.size, b.action_buf.rows.take b.size,
        b.next_state_buf.rows.take b.size, b.reward_buf.rows.take b.size,
        b.done_buf.rows.take b.size]) := by
  obtain ⟨w1, w2, w3, w4, w5⟩ := hwf
  simp only [TransitionBuffer.sample, Bool.false_eq_true, if_false]
  rw [gatherRows_range b.state_buf.rows b.size w1,
    gatherRows_range b.action_buf.rows b.size w2,
    gatherRows_range b.next_state_buf.rows b.size w3,
    gatherRows_range b.reward_buf.rows b.size w4,
    gatherRows_range b.done_buf.rows b.size w5]

/-- C6 witness: the full readout of `cap3buf` in slot order. -/
theorem claim_c6_witness :
    cap3buf.WF ∧
    cap3buf.sample [] false none =
      (cap3buf, some [cap3buf.state_buf.rows.take cap3buf.size,
        cap3buf.action_buf.rows.take cap3buf.size,
        cap3buf.next_state_buf.rows.take cap3buf.size,
        cap3buf.reward_buf.rows.take cap3buf.size,
        cap3buf.done_buf.rows.take cap3buf.size]) :=
  ⟨by decide, claim_c6_sample_order cap3buf [] (by decide)⟩

/-- C5: `sample(batch_size = k)` succeeds and returns exactly
`min(k, count)` rows in every per-field container, for any `k ≥ 0`, any
shuffle flag (with the shuffled index list a permutation of
`range count`, as `random.shuffle` produces), and any well-formed buffer
state; in particular a `k` larger than `count` yields just `count` rows. -/
theorem claim_c5_sample_size (b : TransitionBuffer) (k : Nat) (sh : Bool)
    (perm : List Nat) (hwf : b.WF)
    (hperm : sh = true → perm.Perm (List.range b.size)) :
    ∃ out, b.sample perm sh (some k) = (b, some out) ∧
      out.length = 5 ∧ ∀ f ∈ out, f.length = min k b.size := by
  obtain ⟨w1, w2, w3, w4, w5⟩ := hwf
  have hl1 : (if sh then perm else List.range b.size).length = b.size := by
    cases sh with
    | false => simp
    | true => simpa using (hperm rfl).length_eq
  have hmem : ∀ i ∈ (if sh then perm else List.range b.size),
      i < b.size := by
    cases sh with
    | false =>
      intro i hi
      exact List.mem_range.mp (by simpa using hi)
    | true =>
      intro i hi
      exact List.mem_range.mp (((hperm rfl).mem_iff).mp (by simpa using hi))
  have hmem' : ∀ i ∈ (if sh then perm else List.range b.size).take k,
      i < b.size := fun i hi => hmem i (List.mem_of_mem_take hi)
  have hlen : ((if sh then perm else List.range b.size).take k).length =
      min k b.size := by rw [List.length_take, hl1]
  obtain ⟨o1, ho1, he1⟩ := gatherRows_some b.state_buf.rows _
    (fun i hi => lt_of_lt_of_le (hmem' i hi) w1)
  obtain ⟨o2, ho2, he2⟩ := gatherRows_some b.action_buf.rows _
    (fun i hi => lt_of_lt_of_le (hmem' i hi) w2)
  obtain ⟨o3, ho3, he3⟩ := gatherRows_some b.next_state_buf.rows _
    (fun i hi => lt_of_lt_of_le (hmem' i hi) w3)
  obtain ⟨o4, ho4, he4⟩ := gatherRows_some b.reward_buf.rows _
    (fun i hi => lt_of_lt_of_le (hmem' i hi) w4)
  obtain ⟨o5, ho5, he5⟩ := gatherRows_some b.done_buf.rows _
    (fun i hi => lt_of_lt_of_le (hmem' i hi) w5)
  refine ⟨[o1, o2, o3, o4, o5], ?_, rfl, ?_⟩
  · simp only [TransitionBuffer.sample]
    rw [ho1, ho2, ho3, ho4, ho5]
  · intro f hf
    simp only [List.mem_cons, List.not_mem_nil, or_false] at hf
    rcases hf with rfl | rfl | rfl | rfl | rfl
    · rw [he1, hlen]
    · rw [he2, hlen]
    · rw [he3, hlen]
    · rw [he4, hlen]
    · rw [he5, hlen]

/-- C5 witness: sampling `cap3buf` (count 3) with batch size 5 under the
shuffle permutation `[2, 0, 1]` returns 3 rows per field. -/
theorem claim_c5_witness :
    cap3buf.WF ∧ List.Perm [2, 0, 1] (List.range cap3buf.size) ∧
    ∃ out, cap3buf.sample [2, 0, 1] true (some 5) = (cap3buf, some out) ∧
      out.length = 5 ∧ ∀ f ∈ out, f.length = min 5 cap3buf.size :=
  ⟨by decide, by decide,
   claim_c5_sample_size cap3buf 5 true [2, 0, 1] (by decide)
     (fun _ => by decide)⟩

/-- Two insertions into a capacity-1 continuous-action buffer
(action shape `(2,)`).  Because the append guard uses `<=`, both calls
append, and the buffer then sits in the overwrite phase
(`total_size = 2 > buffer_size = 1`). -/
def owArgs : List InsertArg :=
  [⟨⟨[1], [10]⟩, ⟨[2], [1, 2]⟩, ⟨[1], [10]⟩, 0, false⟩,
   ⟨⟨[1], [11]⟩, ⟨[2], [3, 4]⟩, ⟨[1], [11]⟩, 0, false⟩]

/-- A capacity-1 buffer in the overwrite phase. -/
def owBuf : TransitionBuffer :=
  ((TransitionBuffer.make [1] [2] false 1).insertSeq owArgs).1

/-- C4 counterexample: both halves of the claim fail on concrete inputs.
(i) In the overwrite phase, an action of shape `()` disagrees with the fixed
action shape `(2,)`, yet the insertion succeeds silently, because the slot
assignment `buffer[ptr] = data` broadcasts the scalar.  (ii) In the
overwrite phase, an action of shape `(1, 2)` cannot broadcast into the slot,
so the call raises — but the state field was already overwritten, so the
failing call does not leave the buffer unchanged.  (iii) Even in the append
phase, a buffer with `state_shape = ()` holds the 1-D empty state storage
`th.zeros((0,))`, which `torch.cat`'s legacy exemption skips, so the first
insertion silently accepts and stores a state of shape `(3,)`. -/
theorem claim_c4_counterexample :
    owBuf.total_size > owBuf.buffer_size ∧
    ((owBuf.insert_transition ⟨[1], [12]⟩ ⟨[], [7]⟩ ⟨[1], [12]⟩ 0
        false).2 = none ∧
      (⟨[], [7]⟩ : Tens).shape ≠ owBuf.action_buf.eshape) ∧
    ((owBuf.insert_transition ⟨[1], [13]⟩ ⟨[1, 2], [8, 9]⟩ ⟨[1], [13]⟩ 0
        false).2 = some PyError.assignShapeMismatch ∧
      (owBuf.insert_transition ⟨[1], [13]⟩ ⟨[1, 2], [8, 9]⟩ ⟨[1], [13]⟩ 0
        false).1 ≠ owBuf) ∧
    ((TransitionBuffer.make [] [2] false 3).total_size ≤
        (TransitionBuffer.make [] [2] false 3).buffer_size ∧
      (⟨[3], [7, 8, 9]⟩ : Tens).shape ≠
        (TransitionBuffer.make [] [2] false 3).state_buf.eshape ∧
      ((TransitionBuffer.make [] [2] false 3).insert_transition
        ⟨[3], [7, 8, 9]⟩ ⟨[2], [1, 2]⟩ ⟨[], [5]⟩ 0 false).2 = none ∧
      ((TransitionBuffer.make [] [2] false 3).insert_transition
        ⟨[3], [7, 8, 9]⟩ ⟨[2], [1, 2]⟩ ⟨[], [5]⟩ 0 false).1.state_buf.rows =
        [[7, 8, 9]]) := by
  decide

theorem TransitionBuffer.storeStep_append_cases (b : TransitionBuffer)
    (st act ns rew dn : Tens) (hle : b.total_size ≤ b.buffer_size) :
    (b.storeStep st act ns rew dn).2 = none ∨
    b.storeStep st act ns rew dn = (b, some .catShapeMismatch) := by
  unfold TransitionBuffer.storeStep
  rw [if_pos hle]
  split
  · exact Or.inl rfl
  · exact Or.inr rfl

theorem TransitionBuffer.storeStep_append_badstate (b : TransitionBuffer)
    (st act ns rew dn : Tens) (hle : b.total_size ≤ b.buffer_size)
    (hst : st.shape ≠ b.state_buf.eshape)
    (hleg : ¬(b.state_buf.eshape = [] ∧ b.state_buf.rows = [])) :
    b.storeStep st act ns rew dn = (b, some .catShapeMismatch) := by
  unfold TransitionBuffer.storeStep
  rw [if_pos hle, FieldBuf.catRow_eq_none hst hleg]

/-- C4 amended: in the append phase (`total_inserted <= capacity`, nonzero
capacity) any `insert_transition` call that raises leaves the buffer
unchanged, and a state whose shape differs from the buffer's fixed state
shape raises at the point of insertion — unless the state storage is the
1-D empty tensor (entry shape `()` with no rows stored yet), which
`torch.cat`'s legacy exemption accepts silently.  (In the overwrite phase
broadcastable mismatches are accepted silently and a failing call can leave
earlier fields already overwritten.) -/
theorem claim_c4_amended (b : TransitionBuffer) (st a ns : Tens) (r : Int)
    (dn : Bool) (hcap : b.buffer_size ≠ 0)
    (hle : b.total_size ≤ b.buffer_size) :
    ((b.insert_transition st a ns r dn).2.isSome →
      (b.insert_transition st a ns r dn).1 = b) ∧
    (st.shape ≠ b.state_buf.eshape →
      ¬(b.state_buf.eshape = [] ∧ b.state_buf.rows = []) →
      (b.insert_transition st a ns r dn).2.isSome) := by
  have hcases := TransitionBuffer.storeStep_append_cases b st
    (if b.discrete then ⟨1 :: a.shape, a.data⟩ else a) ns ⟨[1], [r]⟩
    ⟨[1], [if dn then 1 else 0]⟩ hle
  have hcnt := b.storeStep_counters st
    (if b.discrete then ⟨1 :: a.shape, a.data⟩ else a) ns ⟨[1], [r]⟩
    ⟨[1], [if dn then 1 else 0]⟩
  have hbad := fun hst hleg => TransitionBuffer.storeStep_append_badstate b st
    (if b.discrete then ⟨1 :: a.shape, a.data⟩ else a) ns ⟨[1], [r]⟩
    ⟨[1], [if dn then 1 else 0]⟩ hle hst hleg
  unfold TransitionBuffer.insert_transition
  rcases hss : b.storeStep st
      (if b.discrete then ⟨1 :: a.shape, a.data⟩ else a) ns ⟨[1], [r]⟩
      ⟨[1], [if dn then 1 else 0]⟩ with ⟨b', e⟩
  rw [hss] at hcases hcnt
  dsimp only at hcases hcnt
  cases e with
  | some err =>
    dsimp only
    constructor
    · intro _
      rcases hcases with hnone | hfail
      · simp at hnone
      · have := congrArg Prod.fst hfail
        simpa using this
    · intro _ _
      rfl
  | none =>
    dsimp only
    constructor
    · intro hsome
      exfalso
      unfold TransitionBuffer.advance at hsome
      rw [if_neg (show ¬ b'.buffer_size = 0 from by
        rw [hcnt.1]; exact hcap)] at hsome
      simp at hsome
    · intro hst hleg
      exfalso
      have := (hbad hst hleg).symm.trans hss
      simp at this

/-- C4 amended witness: a fresh append-phase buffer (state shape `(1,)`, so
the legacy-exemption carve-out does not apply) where a mismatched state
shape raises and any raising call leaves the buffer unchanged; every
hypothesis and antecedent is discharged concretely. -/
theorem claim_c4_amended_witness :
    (TransitionBuffer.make [1] [2] false 3).buffer_size ≠ 0 ∧
    (TransitionBuffer.make [1] [2] false 3).total_size ≤
      (TransitionBuffer.make [1] [2] false 3).buffer_size ∧
    ((((TransitionBuffer.make [1] [2] false 3).insert_transition
        ⟨[1, 1], [9]⟩ ⟨[2], [1, 2]⟩ ⟨[1], [9]⟩ 0 false).2.isSome →
      ((TransitionBuffer.make [1] [2] false 3).insert_transition
        ⟨[1, 1], [9]⟩ ⟨[2], [1, 2]⟩ ⟨[1], [9]⟩ 0 false).1 =
        TransitionBuffer.make [1] [2] false 3) ∧
    ((TransitionBuffer.make [1] [2] false 3).insert_transition
        ⟨[1, 1], [9]⟩ ⟨[2], [1, 2]⟩ ⟨[1], [9]⟩ 0 false).2.isSome) :=
  ⟨by decide, by decide,
   (claim_c4_amended (TransitionBuffer.make [1] [2] false 3)
     ⟨[1, 1], [9]⟩ ⟨[2], [1, 2]⟩ ⟨[1], [9]⟩ 0 false
     (by decide) (by decide)).1,
   (claim_c4_amended (TransitionBuffer.make [1] [2] false 3)
     ⟨[1, 1], [9]⟩ ⟨[2], [1, 2]⟩ ⟨[1], [9]⟩ 0 false
     (by decide) (by decide)).2 (by decide) (by decide)⟩
